import Mathlib

/-!
Verification of the soccer-ball texture generator (gen_texture.py).

The generator projects the edge graph of a truncated icosahedron onto an
equirectangular raster.  We embed the numeric core shallowly: Python floats
become real numbers, Python float division becomes a fallible operation
(an `Option` result is `none` exactly where Python would raise
`ZeroDivisionError`), `int(...)` becomes truncation toward zero, and the
static vertex/face tables are transcribed verbatim.  The exact algebraic
coordinates (elements of the field extension by the square root of five)
are mirrored by integer pairs so that geometric non-degeneracy facts are
decidable.
-/

namespace BallGen

noncomputable section

/-- A 3D point, as in the VERTICES table. -/
abbrev V3 := ℝ × ℝ × ℝ

/-- Euclidean dot product on 3D points. -/
def dot3 (u v : V3) : ℝ := u.1 * v.1 + u.2.1 * v.2.1 + u.2.2 * v.2.2

/-- math.radians. -/
def rad (d : ℝ) : ℝ := d * Real.pi / 180

/-- math.degrees. -/
def deg (r : ℝ) : ℝ := r * 180 / Real.pi

/-- math.atan2, realized as the argument of the complex number x + y i.
Both have range (-pi, pi] on real inputs and send the origin to 0. -/
def atan2 (y x : ℝ) : ℝ := Complex.arg (x + y * Complex.I)

/-- Python int() applied to a real value: truncation toward zero. -/
def pyInt (x : ℝ) : ℤ := if 0 ≤ x then ⌊x⌋ else -⌊-x⌋

/-- Python int() applied to an exact rational value. -/
def pyIntQ (q : ℚ) : ℤ := if 0 ≤ q then ⌊q⌋ else -⌊-q⌋

/-- Constant C0 of the geometry table. -/
def C0 : ℝ := (1 + Real.sqrt 5) / 4

/-- Constant C1 of the geometry table. -/
def C1 : ℝ := (1 + Real.sqrt 5) / 2

/-- Constant C2 of the geometry table. -/
def C2 : ℝ := (5 + Real.sqrt 5) / 4

/-- Constant C3 of the geometry table. -/
def C3 : ℝ := (2 + Real.sqrt 5) / 2

/-- Constant C4 of the geometry table. -/
def C4 : ℝ := 3 * (1 + Real.sqrt 5) / 4

/-- The VERTICES table of gen_texture.py, transcribed entry by entry. -/
def VERTICES : List V3 := [
  ( 0.5,  0.0,   C4), ( 0.5,  0.0,  -C4), (-0.5,  0.0,   C4), (-0.5,  0.0,  -C4), (  C4,  0.5,  0.0), (  C4, -0.5,  0.0), ( -C4,  0.5,  0.0),
  ( -C4, -0.5,  0.0), ( 0.0,   C4,  0.5), ( 0.0,   C4, -0.5), ( 0.0,  -C4,  0.5), ( 0.0,  -C4, -0.5), ( 1.0,   C0,   C3), ( 1.0,   C0,  -C3),
  ( 1.0,  -C0,   C3), ( 1.0,  -C0,  -C3), (-1.0,   C0,   C3), (-1.0,   C0,  -C3), (-1.0,  -C0,   C3), (-1.0,  -C0,  -C3), (  C3,  1.0,   C0),
  (  C3,  1.0,  -C0), (  C3, -1.0,   C0), (  C3, -1.0,  -C0), ( -C3,  1.0,   C0), ( -C3,  1.0,  -C0), ( -C3, -1.0,   C0), ( -C3, -1.0,  -C0),
  (  C0,   C3,  1.0), (  C0,   C3, -1.0), (  C0,  -C3,  1.0), (  C0,  -C3, -1.0), ( -C0,   C3,  1.0), ( -C0,   C3, -1.0), ( -C0,  -C3,  1.0),
  ( -C0,  -C3, -1.0), ( 0.5,   C1,   C2), ( 0.5,   C1,  -C2), ( 0.5,  -C1,   C2), ( 0.5,  -C1,  -C2), (-0.5,   C1,   C2), (-0.5,   C1,  -C2),
  (-0.5,  -C1,   C2), (-0.5,  -C1,  -C2), (  C2,  0.5,   C1), (  C2,  0.5,  -C1), (  C2, -0.5,   C1), (  C2, -0.5,  -C1), ( -C2,  0.5,   C1),
  ( -C2,  0.5,  -C1), ( -C2, -0.5,   C1), ( -C2, -0.5,  -C1), (  C1,   C2,  0.5), (  C1,   C2, -0.5), (  C1,  -C2,  0.5), (  C1,  -C2, -0.5),
  ( -C1,   C2,  0.5), ( -C1,   C2, -0.5), ( -C1,  -C2,  0.5), ( -C1,  -C2, -0.5)]

/-- The FACES table of gen_texture.py, transcribed entry by entry,
including the repeated first row exactly as in the source. -/
def FACES : List (List ℕ) := [
  [  0,  2, 18, 42, 38, 14 ], [  0,  2, 18, 42, 38, 14 ], [  1,  3, 17, 41, 37, 13 ],
  [  2,  0, 12, 36, 40, 16 ], [  3,  1, 15, 39, 43, 19 ], [  4,  5, 23, 47, 45, 21 ],
  [  5,  4, 20, 44, 46, 22 ], [  6,  7, 26, 50, 48, 24 ], [  7,  6, 25, 49, 51, 27 ],
  [  8,  9, 33, 57, 56, 32 ], [  9,  8, 28, 52, 53, 29 ], [ 10, 11, 31, 55, 54, 30 ],
  [ 11, 10, 34, 58, 59, 35 ], [ 12, 44, 20, 52, 28, 36 ], [ 13, 37, 29, 53, 21, 45 ],
  [ 14, 38, 30, 54, 22, 46 ], [ 15, 47, 23, 55, 31, 39 ], [ 16, 40, 32, 56, 24, 48 ],
  [ 17, 49, 25, 57, 33, 41 ], [ 18, 50, 26, 58, 34, 42 ], [ 19, 43, 35, 59, 27, 51 ],
  [  0, 14, 46, 44, 12 ], [  1, 13, 45, 47, 15 ], [  2, 16, 48, 50, 18 ],
  [  3, 19, 51, 49, 17 ], [  4, 21, 53, 52, 20 ], [  5, 22, 54, 55, 23 ],
  [  6, 24, 56, 57, 25 ], [  7, 27, 59, 58, 26 ], [  8, 32, 40, 36, 28 ],
  [  9, 29, 37, 41, 33 ], [ 10, 30, 38, 42, 34 ], [ 11, 35, 43, 39, 31 ]]

/-- xyz_to_lonlat of gen_texture.py: normalize to the unit sphere, then
longitude = atan2(y, x) and latitude = asin(z), both in degrees. -/
def xyz_to_lonlat (x y z : ℝ) : ℝ × ℝ :=
  let r := Real.sqrt (x * x + y * y + z * z)
  (deg (atan2 (y / r) (x / r)), deg (Real.arcsin (z / r)))

/-- Rotation about the X axis by lat_rotation degrees (first rotation
applied in main of gen_texture.py). -/
def rotX (latR : ℝ) (v : V3) : V3 :=
  (v.1,
   v.2.1 * Real.cos (rad latR) - v.2.2 * Real.sin (rad latR),
   v.2.1 * Real.sin (rad latR) + v.2.2 * Real.cos (rad latR))

/-- Rotation about the Y axis by lon_rotation degrees (second rotation
applied in main of gen_texture.py). -/
def rotY (lonR : ℝ) (v : V3) : V3 :=
  (v.1 * Real.cos (rad lonR) + v.2.2 * Real.sin (rad lonR),
   v.2.1,
   -v.1 * Real.sin (rad lonR) + v.2.2 * Real.cos (rad lonR))

/-- The two-step rotation applied to every vertex in main. -/
def rotate_vertex (latR lonR : ℝ) (v : V3) : V3 := rotY lonR (rotX latR v)

/-- The vertex_lonlat list computed in main: every vertex is rotated and
projected to (longitude, latitude) in degrees. -/
def vertex_lonlat (latR lonR : ℝ) : List (ℝ × ℝ) :=
  VERTICES.map (fun v =>
    let w := rotate_vertex latR lonR v
    xyz_to_lonlat w.1 w.2.1 w.2.2)

/-- The projected lon/lat of vertex number i (vertex_lonlat[i]). -/
def projVert (latR lonR : ℝ) (i : ℕ) : ℝ × ℝ :=
  (vertex_lonlat latR lonR).getD i (0, 0)

/-- lonlat_to_xy of gen_texture.py: equirectangular pixel mapping with
cyclic longitude (mod width) and clamped latitude. -/
def lonlat_to_xy (lon lat : ℝ) (width height : ℤ) : ℤ × ℤ :=
  let u := pyInt ((rad lon + Real.pi) / (2 * Real.pi) * width)
  let v := pyInt ((Real.pi / 2 - rad lat) / Real.pi * height)
  (u % width, max 0 (min (height - 1) v))

/-- The haversine quantity a computed for an edge in main. -/
def havA (p1 p2 : ℝ × ℝ) : ℝ :=
  Real.sin ((rad p2.2 - rad p1.2) / 2) ^ 2 +
    Real.cos (rad p1.2) * Real.cos (rad p2.2) * Real.sin ((rad p2.1 - rad p1.1) / 2) ^ 2

/-- The central angle c computed for an edge in main. -/
def havC (p1 p2 : ℝ × ℝ) : ℝ :=
  2 * atan2 (Real.sqrt (havA p1 p2)) (Real.sqrt (1 - havA p1 p2))

/-- One iteration of the slerp loop body in main, at interpolation
fraction f and central angle c. -/
def slerpSample (p1 p2 : ℝ × ℝ) (c f : ℝ) : ℝ × ℝ :=
  let lat1 := rad p1.2
  let lon1 := rad p1.1
  let lat2 := rad p2.2
  let lon2 := rad p2.1
  let A := Real.sin ((1 - f) * c) / Real.sin c
  let B := Real.sin (f * c) / Real.sin c
  let x := A * Real.cos lat1 * Real.cos lon1 + B * Real.cos lat2 * Real.cos lon2
  let y := A * Real.cos lat1 * Real.sin lon1 + B * Real.cos lat2 * Real.sin lon2
  let z := A * Real.sin lat1 + B * Real.sin lat2
  (deg (atan2 y x), deg (atan2 z (Real.sqrt (x * x + y * y))))

/-- The per-edge interpolation loop of main.  The result is `none`
exactly where Python raises ZeroDivisionError: when the loop body runs
with interpolation_points = 1 (fraction j / 0) or with sin(c) = 0 (slerp
denominator).  When interpolation_points <= 0 the loop body never runs
and the point list is empty. -/
def interpolate (p1 p2 : ℝ × ℝ) (n : ℤ) : Option (List (ℝ × ℝ)) :=
  if n ≤ 0 then some []
  else if n = 1 then none
  else if Real.sin (havC p1 p2) = 0 then none
  else some ((List.range n.toNat).map
    (fun j : ℕ => slerpSample p1 p2 (havC p1 p2) ((j : ℝ) / ((n : ℝ) - 1))))

/-- The consecutive vertex pairs of a face, after the face list is closed
by appending its first element (as in main). -/
def faceEdges (f : List ℕ) : List (ℕ × ℕ) := f.zip (f.drop 1 ++ [f.headI])

/-- Every directed edge drawn by main, in face/edge enumeration order. -/
def allEdges : List (ℕ × ℕ) := FACES.flatMap faceEdges

/-- Run the interpolation loop over a list of edges, failing as soon as
one edge raises. -/
def seqInterp (latR lonR : ℝ) (n : ℤ) : List (ℕ × ℕ) → Option (List (List (ℝ × ℝ)))
  | [] => some []
  | e :: es =>
    match interpolate (projVert latR lonR e.1) (projVert latR lonR e.2) n,
          seqInterp latR lonR n es with
    | some ps, some rest => some (ps :: rest)
    | _, _ => none

/-- The whole edge-drawing phase of main: interpolate every edge of every
face.  `none` means the run raises ZeroDivisionError. -/
def run_edges (latR lonR : ℝ) (n : ℤ) : Option (List (List (ℝ × ℝ))) :=
  seqInterp latR lonR n allEdges

/-- lat_factor computed for every interpolated point in main. -/
def lat_factor (lat : ℝ) : ℝ := 1 / max 0.001 (Real.cos (rad |lat|))

/-- lat_adjusted_radius computed for every interpolated point in main:
the horizontal half-width of the stamped ellipse. -/
def lat_adjusted_radius (t : ℤ) (lat : ℝ) : ℤ := pyInt ((t : ℝ) * lat_factor lat)

/-- The horizontal half-width formula claimed by the specification,
with round(.) instead of the int(.) truncation of the source. -/
def rx_spec_round (t : ℤ) (lat : ℝ) : ℤ :=
  round ((t : ℝ) * (1 / max 0.001 (Real.cos (rad |lat|))))

/-- The bounding box passed to draw.ellipse for one interpolated point. -/
def stamp_box (px py r t : ℤ) : ℤ × ℤ × ℤ × ℤ := (px - r, py - t, px + r, py + t)

/-- The u-coordinate shift applied by the wraparound correction in main. -/
def shift_u (w u : ℤ) : ℤ := if (u : ℚ) < (w : ℚ) / 2 then u + w else u

/-- The pentagon centroid u-coordinate computed by main, including the
longitude-seam wraparound correction. -/
def center_u_code (us : List ℤ) (w : ℤ) : ℤ :=
  let mn := us.min?.getD 0
  let mx := us.max?.getD 0
  if ((mx - mn : ℤ) : ℚ) > (w : ℚ) / 2 then
    pyIntQ ((((us.map (shift_u w)).sum : ℤ) : ℚ) / 5) % w
  else
    pyIntQ (((us.sum : ℤ) : ℚ) / 5)

/-- The fixed seam margin computed by main: int(0.08 * width). -/
def margin_code (w : ℤ) : ℤ := pyIntQ ((0.08 : ℚ) * w)

/-- The extra flood-fill seeds placed by main after the centroid fill:
one near the right edge when the centroid is close to the left edge, one
near the left edge when it is close to the right edge. -/
def mirrorSeeds (center_u center_v w : ℤ) : List (ℤ × ℤ) :=
  if center_u < margin_code w then [(w - 1, center_v)]
  else if center_u > w - margin_code w then [(1, center_v)]
  else []

/-- An exact coordinate a/4 + (b/4) sqrt 5, stored as the integer pair
(a, b). -/
abbrev Z5 := ℤ × ℤ

/-- An exact vertex: three exact coordinates. -/
abbrev QV3 := Z5 × Z5 × Z5

/-- The real value of an exact coordinate. -/
def z5R (p : Z5) : ℝ := ((p.1 : ℝ) + (p.2 : ℝ) * Real.sqrt 5) / 4

/-- The real vertex of an exact vertex. -/
def qvR (v : QV3) : V3 := (z5R v.1, z5R v.2.1, z5R v.2.2)

/-- Product of two exact coordinates, scaled by 4 (so that it matches the
dot-product convention of dotZ below). -/
def mulZ5 (p q : Z5) : Z5 := (p.1 * q.1 + 5 * p.2 * q.2, p.1 * q.2 + p.2 * q.1)

/-- Sixteen times the dot product of two exact vertices, as an exact
element a + b sqrt 5 stored as (a, b). -/
def dotZ (u v : QV3) : Z5 :=
  (((mulZ5 u.1 v.1).1 + (mulZ5 u.2.1 v.2.1).1 + (mulZ5 u.2.2 v.2.2).1),
   ((mulZ5 u.1 v.1).2 + (mulZ5 u.2.1 v.2.1).2 + (mulZ5 u.2.2 v.2.2).2))

/-- Negation of an exact vertex. -/
def negQ (v : QV3) : QV3 :=
  ((-v.1.1, -v.1.2), (-v.2.1.1, -v.2.1.2), (-v.2.2.1, -v.2.2.2))

/-- Default exact vertex used with getD. -/
def qv0 : QV3 := ((0, 0), (0, 0), (0, 0))

/-- The VERTICES table with exact coordinates: each entry is four times
the corresponding source coordinate, split into rational and sqrt-5
parts.  0.5 becomes (2,0), 1.0 becomes (4,0), C0 becomes (1,1), C1
becomes (2,2), C2 becomes (5,1), C3 becomes (4,2), C4 becomes (3,3). -/
def VERTICES_Q : List QV3 := [
  (( 2, 0), ( 0, 0), ( 3, 3)), (( 2, 0), ( 0, 0), (-3,-3)), ((-2, 0), ( 0, 0), ( 3, 3)), ((-2, 0), ( 0, 0), (-3,-3)),
  (( 3, 3), ( 2, 0), ( 0, 0)), (( 3, 3), (-2, 0), ( 0, 0)), ((-3,-3), ( 2, 0), ( 0, 0)), ((-3,-3), (-2, 0), ( 0, 0)),
  (( 0, 0), ( 3, 3), ( 2, 0)), (( 0, 0), ( 3, 3), (-2, 0)), (( 0, 0), (-3,-3), ( 2, 0)), (( 0, 0), (-3,-3), (-2, 0)),
  (( 4, 0), ( 1, 1), ( 4, 2)), (( 4, 0), ( 1, 1), (-4,-2)), (( 4, 0), (-1,-1), ( 4, 2)), (( 4, 0), (-1,-1), (-4,-2)),
  ((-4, 0), ( 1, 1), ( 4, 2)), ((-4, 0), ( 1, 1), (-4,-2)), ((-4, 0), (-1,-1), ( 4, 2)), ((-4, 0), (-1,-1), (-4,-2)),
  (( 4, 2), ( 4, 0), ( 1, 1)), (( 4, 2), ( 4, 0), (-1,-1)), (( 4, 2), (-4, 0), ( 1, 1)), (( 4, 2), (-4, 0), (-1,-1)),
  ((-4,-2), ( 4, 0), ( 1, 1)), ((-4,-2), ( 4, 0), (-1,-1)), ((-4,-2), (-4, 0), ( 1, 1)), ((-4,-2), (-4, 0), (-1,-1)),
  (( 1, 1), ( 4, 2), ( 4, 0)), (( 1, 1), ( 4, 2), (-4, 0)), (( 1, 1), (-4,-2), ( 4, 0)), (( 1, 1), (-4,-2), (-4, 0)),
  ((-1,-1), ( 4, 2), ( 4, 0)), ((-1,-1), ( 4, 2), (-4, 0)), ((-1,-1), (-4,-2), ( 4, 0)), ((-1,-1), (-4,-2), (-4, 0)),
  (( 2, 0), ( 2, 2), ( 5, 1)), (( 2, 0), ( 2, 2), (-5,-1)), (( 2, 0), (-2,-2), ( 5, 1)), (( 2, 0), (-2,-2), (-5,-1)),
  ((-2, 0), ( 2, 2), ( 5, 1)), ((-2, 0), ( 2, 2), (-5,-1)), ((-2, 0), (-2,-2), ( 5, 1)), ((-2, 0), (-2,-2), (-5,-1)),
  (( 5, 1), ( 2, 0), ( 2, 2)), (( 5, 1), ( 2, 0), (-2,-2)), (( 5, 1), (-2, 0), ( 2, 2)), (( 5, 1), (-2, 0), (-2,-2)),
  ((-5,-1), ( 2, 0), ( 2, 2)), ((-5,-1), ( 2, 0), (-2,-2)), ((-5,-1), (-2, 0), ( 2, 2)), ((-5,-1), (-2, 0), (-2,-2)),
  (( 2, 2), ( 5, 1), ( 2, 0)), (( 2, 2), ( 5, 1), (-2, 0)), (( 2, 2), (-5,-1), ( 2, 0)), (( 2, 2), (-5,-1), (-2, 0)),
  ((-2,-2), ( 5, 1), ( 2, 0)), ((-2,-2), ( 5, 1), (-2, 0)), ((-2,-2), (-5,-1), ( 2, 0)), ((-2,-2), (-5,-1), (-2, 0))]

/-- The decidable non-degeneracy condition for a drawn edge (i, j): both
indices are in range, both endpoint vertices lie on the common sphere
(16 times the squared norm is 58 + 18 sqrt 5), and the endpoints are
neither equal nor antipodal. -/
def goodPair (i j : ℕ) : Prop :=
  i < 60 ∧ j < 60 ∧
  dotZ (VERTICES_Q.getD i qv0) (VERTICES_Q.getD i qv0) = (58, 18) ∧
  dotZ (VERTICES_Q.getD j qv0) (VERTICES_Q.getD j qv0) = (58, 18) ∧
  VERTICES_Q.getD i qv0 ≠ VERTICES_Q.getD j qv0 ∧
  VERTICES_Q.getD i qv0 ≠ negQ (VERTICES_Q.getD j qv0)

/-- The range condition satisfied by every projected point: longitude in
(-180, 180], latitude in [-90, 90], and points at a pole carry longitude
zero. -/
def inRange (p : ℝ × ℝ) : Prop :=
  -180 < p.1 ∧ p.1 ≤ 180 ∧ -90 ≤ p.2 ∧ p.2 ≤ 90 ∧
    ((p.2 = 90 ∨ p.2 = -90) → p.1 = 0)

end

/-- C1: the static geometry table was meant to hold the 32 faces of a
truncated icosahedron, but the source lists 33 face rows: the hexagon
[0, 2, 18, 42, 38, 14] appears at both index 0 and index 1.  The table
does contain 12 pairwise distinct pentagon rows and 20 pairwise distinct
hexagon rows. -/
theorem C1_faces_table_has_duplicate :
    FACES.length = 33 ∧
    FACES.getD 0 [] = FACES.getD 1 [] ∧
    (FACES.filter (fun f => f.length = 5)).length = 12 ∧
    (FACES.filter (fun f => f.length = 5)).Nodup ∧
    (FACES.filter (fun f => f.length = 6)).length = 21 ∧
    ((FACES.filter (fun f => f.length = 6)).dedup).length = 20 := by
  decide

theorem rad_deg (x : ℝ) : rad (deg x) = x := by
  unfold rad deg
  field_simp

theorem deg_rad (x : ℝ) : deg (rad x) = x := by
  unfold rad deg
  field_simp

theorem pyInt_eq_floor (x : ℝ) (h : 0 ≤ x) : pyInt x = ⌊x⌋ := if_pos h

theorem pyIntQ_eq_floor (q : ℚ) (h : 0 ≤ q) : pyIntQ q = ⌊q⌋ := if_pos h

theorem rad_lt_rad (a b : ℝ) (h : a < b) : rad a < rad b := by
  unfold rad
  have := Real.pi_pos
  nlinarith

theorem rad_le_rad (a b : ℝ) (h : a ≤ b) : rad a ≤ rad b := by
  unfold rad
  have := Real.pi_pos
  nlinarith

theorem rad_180 : rad 180 = Real.pi := by
  unfold rad
  field_simp

theorem rad_90 : rad 90 = Real.pi / 2 := by
  unfold rad
  ring

theorem rad_zero : rad 0 = 0 := by
  unfold rad
  ring

/-- C5: lonlat_to_xy realizes the claimed equirectangular formulas; on
longitudes in (-180, 180] and latitudes in [-90, 90] the truncation in
the source coincides with the floor of the claim, u lands in [0, width),
v lands in [0, height - 1], and longitude 180 wraps to u = 0. -/
theorem C5_lonlat_to_xy_spec (lon lat : ℝ) (w h : ℤ) (hw : 0 < w) (hh : 0 < h)
    (hlon1 : -180 < lon) (hlon2 : lon ≤ 180) (_hlat1 : -90 ≤ lat) (hlat2 : lat ≤ 90) :
    lonlat_to_xy lon lat w h =
      (⌊(rad lon + Real.pi) / (2 * Real.pi) * w⌋ % w,
       max 0 (min (h - 1) ⌊(Real.pi / 2 - rad lat) / Real.pi * h⌋)) ∧
    0 ≤ (lonlat_to_xy lon lat w h).1 ∧ (lonlat_to_xy lon lat w h).1 < w ∧
    0 ≤ (lonlat_to_xy lon lat w h).2 ∧ (lonlat_to_xy lon lat w h).2 ≤ h - 1 ∧
    (lon = 180 → (lonlat_to_xy lon lat w h).1 = 0) := by
  have hpi := Real.pi_pos
  have hu0 : 0 < rad lon + Real.pi := by
    have := rad_lt_rad (-180) lon hlon1
    rw [show rad (-180) = -Real.pi by unfold rad; field_simp; ring] at this
    linarith
  have huarg : 0 ≤ (rad lon + Real.pi) / (2 * Real.pi) * (w : ℝ) := by
    apply mul_nonneg (div_nonneg hu0.le (by positivity))
    exact_mod_cast hw.le
  have hv0 : 0 ≤ Real.pi / 2 - rad lat := by
    have := rad_le_rad lat 90 hlat2
    rw [rad_90] at this
    linarith
  have hvarg : 0 ≤ (Real.pi / 2 - rad lat) / Real.pi * (h : ℝ) := by
    apply mul_nonneg (div_nonneg hv0 hpi.le)
    exact_mod_cast hh.le
  have heq : lonlat_to_xy lon lat w h =
      (⌊(rad lon + Real.pi) / (2 * Real.pi) * w⌋ % w,
       max 0 (min (h - 1) ⌊(Real.pi / 2 - rad lat) / Real.pi * h⌋)) := by
    unfold lonlat_to_xy
    rw [pyInt_eq_floor _ huarg, pyInt_eq_floor _ hvarg]
  refine ⟨heq, ?_, ?_, ?_, ?_, ?_⟩
  · rw [heq]
    exact Int.emod_nonneg _ (ne_of_gt hw)
  · rw [heq]
    exact Int.emod_lt_of_pos _ hw
  · rw [heq]
    exact le_max_left _ _
  · rw [heq]
    have : (0 : ℤ) ≤ h - 1 := by omega
    simp only [max_le_iff]
    exact ⟨this, min_le_left _ _⟩
  · intro h180
    rw [heq]
    subst h180
    have : (rad 180 + Real.pi) / (2 * Real.pi) * (w : ℝ) = (w : ℝ) := by
      rw [rad_180]
      field_simp
      ring
    simp only [this, Int.floor_intCast, Int.emod_self]

/-- Witness for C5 at longitude 180, latitude 0, width 4, height 2. -/
theorem C5_lonlat_to_xy_spec_witness :
    (lonlat_to_xy 180 0 4 2).1 = 0 ∧
    0 ≤ (lonlat_to_xy 180 0 4 2).2 ∧ (lonlat_to_xy 180 0 4 2).2 ≤ 2 - 1 := by
  obtain ⟨-, -, -, h4, h5, h6⟩ :=
    C5_lonlat_to_xy_spec 180 0 4 2 (by norm_num) (by norm_num) (by norm_num)
      (by norm_num) (by norm_num) (by norm_num)
  exact ⟨h6 rfl, h4, h5⟩

/-- C2 (the code side): running the interpolation loop with coincident
endpoints divides by sin(c) = sin(0) = 0, so the source raises
ZeroDivisionError for every sample count of at least 2, modeled here as
a `none` result. -/
theorem C2_coincident_endpoints_raise (p : ℝ × ℝ) (n : ℤ) (hn : 2 ≤ n) :
    interpolate p p n = none := by
  have hA : havA p p = 0 := by
    unfold havA
    simp [sub_self]
  have hC : havC p p = 0 := by
    unfold havC atan2
    rw [hA]
    simp [Real.sqrt_zero, Real.sqrt_one, Complex.arg_one]
  unfold interpolate
  rw [if_neg (by omega), if_neg (by omega), if_pos (by rw [hC, Real.sin_zero])]

/-- Witness for C2 at p = (0, 0) and n = 2. -/
theorem C2_coincident_endpoints_raise_witness :
    interpolate (0, 0) (0, 0) 2 = none :=
  C2_coincident_endpoints_raise (0, 0) 2 (by norm_num)

theorem two_mul_sqrt_two_bounds :
    (2 : ℝ) ≤ 2 * Real.sqrt 2 ∧ 2 * Real.sqrt 2 < 3 ∧
    (5 / 2 : ℝ) ≤ 2 * Real.sqrt 2 ∧ 2 * Real.sqrt 2 < 7 / 2 := by
  have h2 : Real.sqrt 2 * Real.sqrt 2 = 2 := Real.mul_self_sqrt (by norm_num)
  have hnn : 0 ≤ Real.sqrt 2 := Real.sqrt_nonneg 2
  refine ⟨by nlinarith, by nlinarith, by nlinarith, by nlinarith⟩

theorem max_eps_cos_45 :
    max (0.001 : ℝ) (Real.cos (rad |(45 : ℝ)|)) = Real.sqrt 2 / 2 := by
  have h45 : rad |(45 : ℝ)| = Real.pi / 4 := by
    rw [show |(45 : ℝ)| = 45 by norm_num]
    unfold rad
    ring
  rw [h45, Real.cos_pi_div_four]
  have h2 : Real.sqrt 2 * Real.sqrt 2 = 2 := Real.mul_self_sqrt (by norm_num)
  have hnn : 0 ≤ Real.sqrt 2 := Real.sqrt_nonneg 2
  exact max_eq_right (by nlinarith)

theorem radius_45_val : (2 : ℝ) * (1 / max 0.001 (Real.cos (rad |(45 : ℝ)|))) =
    2 * Real.sqrt 2 := by
  rw [max_eps_cos_45]
  have h2 : Real.sqrt 2 * Real.sqrt 2 = 2 := Real.mul_self_sqrt (by norm_num)
  have hne : Real.sqrt 2 ≠ 0 := by
    intro h
    rw [h] at h2
    norm_num at h2
  field_simp

/-- C3 counterexample: at latitude 45 degrees with stroke width 2 the
source stamps horizontal half-width int(2 * sqrt 2) = 2, while the
claimed formula round(2 * sqrt 2) gives 3. -/
theorem C3_stroke_radius_counterexample :
    lat_adjusted_radius 2 45 = 2 ∧ rx_spec_round 2 45 = 3 ∧
    lat_adjusted_radius 2 45 ≠ rx_spec_round 2 45 := by
  obtain ⟨hb1, hb2, hb3, hb4⟩ := two_mul_sqrt_two_bounds
  have hval : lat_adjusted_radius 2 45 = 2 := by
    unfold lat_adjusted_radius lat_factor
    rw [show ((2 : ℤ) : ℝ) * (1 / max 0.001 (Real.cos (rad |(45 : ℝ)|))) =
        2 * Real.sqrt 2 by push_cast; exact radius_45_val]
    rw [pyInt_eq_floor _ (by positivity)]
    rw [Int.floor_eq_iff]
    refine ⟨by push_cast; linarith, by push_cast; linarith⟩
  have hround : rx_spec_round 2 45 = 3 := by
    unfold rx_spec_round
    rw [show ((2 : ℤ) : ℝ) * (1 / max 0.001 (Real.cos (rad |(45 : ℝ)|))) =
        2 * Real.sqrt 2 by push_cast; exact radius_45_val]
    rw [round_eq, Int.floor_eq_iff]
    refine ⟨by push_cast; linarith, by push_cast; linarith⟩
  exact ⟨hval, hround, by rw [hval, hround]; norm_num⟩

/-- C3 as amended: the stamped horizontal half-width is the floor (the
int() truncation) of stroke_width * lat_factor, not its rounding; at the
equator it degenerates to the stroke width itself, and the stamped box
has vertical half-width exactly the stroke width. -/
theorem C3_stroke_radius_floor (t : ℤ) (lat : ℝ) (ht : 0 ≤ t) :
    lat_adjusted_radius t lat = ⌊(t : ℝ) * (1 / max 0.001 (Real.cos (rad |lat|)))⌋ ∧
    (lat = 0 → lat_adjusted_radius t lat = t) ∧
    (∀ px py : ℤ, (stamp_box px py (lat_adjusted_radius t lat) t).2.2.2 -
        (stamp_box px py (lat_adjusted_radius t lat) t).2.1 = 2 * t) := by
  have hfac : 0 < 1 / max (0.001 : ℝ) (Real.cos (rad |lat|)) := by
    apply div_pos one_pos
    exact lt_max_of_lt_left (by norm_num)
  refine ⟨?_, ?_, ?_⟩
  · unfold lat_adjusted_radius lat_factor
    rw [pyInt_eq_floor]
    apply mul_nonneg _ hfac.le
    exact_mod_cast ht
  · intro h0
    subst h0
    unfold lat_adjusted_radius lat_factor
    rw [show |(0 : ℝ)| = 0 by norm_num, rad_zero, Real.cos_zero]
    rw [show max (0.001 : ℝ) 1 = 1 by norm_num]
    rw [show ((t : ℝ) * (1 / 1)) = (t : ℝ) by ring]
    rw [pyInt_eq_floor _ (by exact_mod_cast ht), Int.floor_intCast]
  · intro px py
    unfold stamp_box
    ring

/-- Witness for the amended C3 at stroke width 2 and latitude 45. -/
theorem C3_stroke_radius_floor_witness :
    lat_adjusted_radius 2 45 = ⌊(2 : ℝ) * (1 / max 0.001 (Real.cos (rad |(45 : ℝ)|)))⌋ ∧
    (stamp_box 7 9 (lat_adjusted_radius 2 45) 2).2.2.2 -
      (stamp_box 7 9 (lat_adjusted_radius 2 45) 2).2.1 = 2 * 2 := by
  obtain ⟨h1, -, h3⟩ := C3_stroke_radius_floor 2 45 (by norm_num)
  exact ⟨by exact_mod_cast h1, h3 7 9⟩

/-- C6 (the code side): a non-positive interpolation count is not
rejected; the sample loop body never runs, so the edge phase of main
silently produces no stroke points at all and the run continues to the
flood-fill stage and the final save. -/
theorem C6_nonpositive_count_not_rejected (p1 p2 : ℝ × ℝ) (n : ℤ) (hn : n ≤ 0) :
    interpolate p1 p2 n = some [] := by
  unfold interpolate
  rw [if_pos hn]

/-- Witness for C6 at count 0. -/
theorem C6_nonpositive_count_not_rejected_witness :
    interpolate (0, 0) (30, 40) 0 = some [] :=
  C6_nonpositive_count_not_rejected (0, 0) (30, 40) 0 le_rfl

theorem shift_u_nonneg (w u : ℤ) (hu : 0 ≤ u) : 0 ≤ shift_u w u := by
  unfold shift_u
  split_ifs with h
  · have h2 : (2 * u : ℚ) < w := by linarith
    have h3 : (2 * u : ℤ) < w := by exact_mod_cast h2
    omega
  · exact hu

theorem pyIntQ_div5_bounds (S m M : ℤ) (hS : 0 ≤ S) (hm : 5 * m ≤ S) (hM : S ≤ 5 * M) :
    m ≤ pyIntQ ((S : ℚ) / 5) ∧ pyIntQ ((S : ℚ) / 5) ≤ M := by
  rw [pyIntQ_eq_floor _ (by
    apply div_nonneg _ (by norm_num)
    exact_mod_cast hS)]
  constructor
  · rw [Int.le_floor]
    have h5 : ((5 * m : ℤ) : ℚ) ≤ (S : ℚ) := by exact_mod_cast hm
    push_cast at h5 ⊢
    linarith
  · have h1 : ((S : ℚ) / 5) ≤ (M : ℚ) := by
      have h5 : ((S : ℤ) : ℚ) ≤ ((5 * M : ℤ) : ℚ) := by exact_mod_cast hM
      push_cast at h5
      linarith
    calc ⌊(S : ℚ) / 5⌋ ≤ ⌊(M : ℚ)⌋ := Int.floor_le_floor h1
    _ = M := Int.floor_intCast M

/-- C7: when a pentagon straddles the seam (max u minus min u exceeds
half the width), main shifts every u below half the width up by the
width, truncates the average of the five shifted values, and reduces mod
width; the truncated average always lies between the least and greatest
shifted coordinate.  On the u-list [10, 20, 1000, 1010, 1015] at width
1024 the shift produces [1034, 1044, 1000, 1010, 1015] and the centroid
1020, inside the shifted range [1000, 1044], while the naive average
would give the antipodal value 611. -/
theorem C7_wraparound_centroid :
    (∀ a b c d e w : ℤ, 0 ≤ a → 0 ≤ b → 0 ≤ c → 0 ≤ d → 0 ≤ e →
      ((([a, b, c, d, e] : List ℤ).max?.getD 0 -
          ([a, b, c, d, e] : List ℤ).min?.getD 0 : ℤ) : ℚ) > (w : ℚ) / 2 →
      center_u_code [a, b, c, d, e] w =
        pyIntQ (((([a, b, c, d, e].map (shift_u w)).sum : ℤ) : ℚ) / 5) % w ∧
      ([a, b, c, d, e].map (shift_u w)).min?.getD 0 ≤
        pyIntQ (((([a, b, c, d, e].map (shift_u w)).sum : ℤ) : ℚ) / 5) ∧
      pyIntQ (((([a, b, c, d, e].map (shift_u w)).sum : ℤ) : ℚ) / 5) ≤
        ([a, b, c, d, e].map (shift_u w)).max?.getD 0) ∧
    center_u_code [10, 20, 1000, 1010, 1015] 1024 = 1020 ∧
    ([10, 20, 1000, 1010, 1015] : List ℤ).map (shift_u 1024) =
      [1034, 1044, 1000, 1010, 1015] ∧
    pyIntQ (((([10, 20, 1000, 1010, 1015] : List ℤ).sum : ℤ) : ℚ) / 5) = 611 ∧
    (1000 : ℤ) ≤ 1020 ∧ (1020 : ℤ) ≤ 1044 := by
  refine ⟨?_, ?_, ?_, ?_, by norm_num, by norm_num⟩
  · intro a b c d e w ha hb hc hd he hwrap
    have heq : center_u_code [a, b, c, d, e] w =
        pyIntQ (((([a, b, c, d, e].map (shift_u w)).sum : ℤ) : ℚ) / 5) % w := by
      simp only [center_u_code]
      rw [if_pos hwrap]
    refine ⟨heq, ?_⟩
    have h1 := shift_u_nonneg w a ha
    have h2 := shift_u_nonneg w b hb
    have h3 := shift_u_nonneg w c hc
    have h4 := shift_u_nonneg w d hd
    have h5 := shift_u_nonneg w e he
    simp only [List.map_cons, List.map_nil, List.min?, List.max?, List.foldl,
      List.sum_cons, List.sum_nil, Option.getD_some]
    apply pyIntQ_div5_bounds
    · omega
    · omega
    · omega
  · norm_num [center_u_code, shift_u, pyIntQ, List.min?, List.max?, List.foldl]
  · norm_num [shift_u]
  · norm_num [pyIntQ]

/-- Witness for C7 at the u-list [10, 20, 1000, 1010, 1015], width 1024. -/
theorem C7_wraparound_centroid_witness :
    center_u_code [10, 20, 1000, 1010, 1015] 1024 =
      pyIntQ (((([10, 20, 1000, 1010, 1015].map (shift_u 1024)).sum : ℤ) : ℚ) / 5) %
        1024 ∧
    ([10, 20, 1000, 1010, 1015].map (shift_u 1024)).min?.getD 0 ≤
      pyIntQ (((([10, 20, 1000, 1010, 1015].map (shift_u 1024)).sum : ℤ) : ℚ) / 5) ∧
    pyIntQ (((([10, 20, 1000, 1010, 1015].map (shift_u 1024)).sum : ℤ) : ℚ) / 5) ≤
      ([10, 20, 1000, 1010, 1015].map (shift_u 1024)).max?.getD 0 :=
  C7_wraparound_centroid.1 10 20 1000 1010 1015 1024 (by norm_num) (by norm_num)
    (by norm_num) (by norm_num) (by norm_num) (by norm_num [List.min?, List.max?, List.foldl])

/-- Seam margin facts: int(0.08 * width) is nonnegative and at most half
the width. -/
theorem margin_code_bounds (w : ℤ) (hw : 0 < w) :
    0 ≤ margin_code w ∧ 2 * margin_code w ≤ w := by
  unfold margin_code
  have harg : 0 ≤ (0.08 : ℚ) * w := by
    apply mul_nonneg (by norm_num)
    exact_mod_cast hw.le
  rw [pyIntQ_eq_floor _ harg]
  constructor
  · positivity
  · have h1 : (⌊(0.08 : ℚ) * w⌋ : ℚ) ≤ (0.08 : ℚ) * w := Int.floor_le _
    have h2 : (0.08 : ℚ) * w * 2 ≤ (w : ℚ) := by
      have : (0 : ℚ) ≤ (w : ℚ) := by exact_mod_cast hw.le
      nlinarith
    have : (2 * ⌊(0.08 : ℚ) * w⌋ : ℚ) ≤ (w : ℚ) := by nlinarith
    exact_mod_cast this

/-- C8: after the centroid fill of a pentagon, main re-seeds a flood
fill at (width - 1, center_v) exactly when center_u < int(0.08 * width),
and at (1, center_v) exactly when center_u > width - int(0.08 * width),
for any centroid actually inside the raster. -/
theorem C8_mirror_seed_iff (cu cv w : ℤ) (hw : 0 < w) (h0 : 0 ≤ cu) (h1 : cu < w) :
    ((w - 1, cv) ∈ mirrorSeeds cu cv w ↔ cu < margin_code w) ∧
    ((1, cv) ∈ mirrorSeeds cu cv w ↔ w - margin_code w < cu) := by
  obtain ⟨hm0, hm2⟩ := margin_code_bounds w hw
  have hmtwo : margin_code 2 = 0 := by norm_num [margin_code, pyIntQ]
  by_cases hl : cu < margin_code w
  · have hseeds : mirrorSeeds cu cv w = [(w - 1, cv)] := by
      unfold mirrorSeeds
      rw [if_pos hl]
    rw [hseeds]
    simp only [List.mem_singleton, Prod.mk.injEq]
    refine ⟨by simp [hl], ?_, ?_⟩
    · rintro ⟨hweq, -⟩
      exfalso
      have hw2 : w = 2 := by omega
      rw [hw2, hmtwo] at hl
      omega
    · intro hgt
      exfalso
      omega
  · by_cases hr : w - margin_code w < cu
    · have hseeds : mirrorSeeds cu cv w = [(1, cv)] := by
        unfold mirrorSeeds
        rw [if_neg hl, if_pos hr]
      rw [hseeds]
      simp only [List.mem_singleton, Prod.mk.injEq]
      refine ⟨⟨?_, ?_⟩, by simp [hr]⟩
      · rintro ⟨hweq, -⟩
        exfalso
        have hw2 : w = 2 := by omega
        rw [hw2, hmtwo] at hr
        omega
      · intro hlt
        exfalso
        omega
    · have hseeds : mirrorSeeds cu cv w = [] := by
        unfold mirrorSeeds
        rw [if_neg hl, if_neg hr]
      rw [hseeds]
      simp [hl, hr]

/-- Witness for C8 at width 100 and centroid (99, 5): the margin is 8,
so only the right-edge condition triggers. -/
theorem C8_mirror_seed_iff_witness :
    (((100 - 1 : ℤ), (5 : ℤ)) ∈ mirrorSeeds 99 5 100 ↔ (99 : ℤ) < margin_code 100) ∧
    (((1 : ℤ), (5 : ℤ)) ∈ mirrorSeeds 99 5 100 ↔ (100 : ℤ) - margin_code 100 < 99) :=
  C8_mirror_seed_iff 99 5 100 (by norm_num) (by norm_num) (by norm_num)

theorem sin_sq_half (x : ℝ) : Real.sin (x / 2) ^ 2 = (1 - Real.cos x) / 2 := by
  have h1 : Real.cos (2 * (x / 2)) = 2 * Real.cos (x / 2) ^ 2 - 1 := Real.cos_two_mul _
  have h2 : Real.sin (x / 2) ^ 2 + Real.cos (x / 2) ^ 2 = 1 := Real.sin_sq_add_cos_sq _
  rw [show 2 * (x / 2) = x by ring] at h1
  linarith

theorem atan2_zero_zero : atan2 0 0 = 0 := by
  unfold atan2
  norm_num [Complex.arg_zero]

/-- The spherical representation of a unit vector: with latitude
arcsin z and longitude atan2 y x, the cosine/sine products recover the
Cartesian coordinates. -/
theorem cos_sin_arcsin_atan2 (x y z : ℝ) (h : x * x + y * y + z * z = 1) :
    Real.cos (Real.arcsin z) * Real.cos (atan2 y x) = x ∧
    Real.cos (Real.arcsin z) * Real.sin (atan2 y x) = y ∧
    Real.sin (Real.arcsin z) = z := by
  have hz1 : -1 ≤ z := by nlinarith
  have hz2 : z ≤ 1 := by nlinarith
  have hsin : Real.sin (Real.arcsin z) = z := Real.sin_arcsin hz1 hz2
  have hcos : Real.cos (Real.arcsin z) = Real.sqrt (1 - z ^ 2) := Real.cos_arcsin z
  have hxy : 1 - z ^ 2 = x * x + y * y := by nlinarith
  by_cases h0 : x = 0 ∧ y = 0
  · obtain ⟨hx0, hy0⟩ := h0
    subst hx0
    subst hy0
    rw [atan2_zero_zero, hcos, show (1 : ℝ) - z ^ 2 = 0 by nlinarith, Real.sqrt_zero]
    norm_num [hsin]
  · have hpos : 0 < x * x + y * y := by
      rcases not_and_or.mp h0 with hx | hy
      · have : 0 < x * x := mul_self_pos.mpr hx
        nlinarith
      · have : 0 < y * y := mul_self_pos.mpr hy
        nlinarith
    have hne : (x : ℂ) + y * Complex.I ≠ 0 := by
      rw [← Complex.mk_eq_add_mul_I]
      intro hzero
      rw [Complex.ext_iff] at hzero
      simp only [Complex.zero_re, Complex.zero_im] at hzero
      rcases not_and_or.mp h0 with hx | hy
      · exact hx hzero.1
      · exact hy hzero.2
    have habs : Complex.abs ((x : ℂ) + y * Complex.I) = Real.sqrt (x * x + y * y) := by
      rw [← Complex.mk_eq_add_mul_I, Complex.abs_apply, Complex.normSq_mk]
    have hre : ((x : ℂ) + y * Complex.I).re = x := by
      rw [← Complex.mk_eq_add_mul_I]
    have him : ((x : ℂ) + y * Complex.I).im = y := by
      rw [← Complex.mk_eq_add_mul_I]
    have hsqrtne : Real.sqrt (x * x + y * y) ≠ 0 := by
      apply ne_of_gt
      exact Real.sqrt_pos.mpr hpos
    have hcos2 : Real.cos (atan2 y x) = x / Real.sqrt (x * x + y * y) := by
      unfold atan2
      rw [Complex.cos_arg hne, habs, hre]
    have hsin2 : Real.sin (atan2 y x) = y / Real.sqrt (x * x + y * y) := by
      unfold atan2
      rw [Complex.sin_arg, habs, him]
    have hcosval : Real.cos (Real.arcsin z) = Real.sqrt (x * x + y * y) := by
      rw [hcos, hxy]
    refine ⟨?_, ?_, hsin⟩
    · rw [hcosval, hcos2]
      field_simp
    · rw [hcosval, hsin2]
      field_simp

/-- xyz_to_lonlat on a unit vector: the internal normalization is the
identity. -/
theorem xyz_to_lonlat_unit (x y z : ℝ) (h : x * x + y * y + z * z = 1) :
    xyz_to_lonlat x y z = (deg (atan2 y x), deg (Real.arcsin z)) := by
  unfold xyz_to_lonlat
  rw [h, Real.sqrt_one]
  norm_num

/-- xyz_to_lonlat factors through normalization to the unit sphere. -/
theorem xyz_to_lonlat_normalize (x y z : ℝ) (h : 0 < x * x + y * y + z * z) :
    (x / Real.sqrt (x * x + y * y + z * z)) * (x / Real.sqrt (x * x + y * y + z * z)) +
      (y / Real.sqrt (x * x + y * y + z * z)) * (y / Real.sqrt (x * x + y * y + z * z)) +
      (z / Real.sqrt (x * x + y * y + z * z)) * (z / Real.sqrt (x * x + y * y + z * z)) = 1 ∧
    xyz_to_lonlat x y z =
      xyz_to_lonlat (x / Real.sqrt (x * x + y * y + z * z))
        (y / Real.sqrt (x * x + y * y + z * z)) (z / Real.sqrt (x * x + y * y + z * z)) := by
  set s := x * x + y * y + z * z with hs
  have hr : Real.sqrt s * Real.sqrt s = s := Real.mul_self_sqrt h.le
  have hunit : (x / Real.sqrt s) * (x / Real.sqrt s) +
      (y / Real.sqrt s) * (y / Real.sqrt s) + (z / Real.sqrt s) * (z / Real.sqrt s) = 1 := by
    have hrw : (x / Real.sqrt s) * (x / Real.sqrt s) +
        (y / Real.sqrt s) * (y / Real.sqrt s) + (z / Real.sqrt s) * (z / Real.sqrt s) =
        (x * x + y * y + z * z) / (Real.sqrt s * Real.sqrt s) := by
      ring
    rw [hrw, hr, ← hs, div_self (ne_of_gt h)]
  refine ⟨hunit, ?_⟩
  unfold xyz_to_lonlat
  rw [← hs, hunit, Real.sqrt_one]
  norm_num

/-- The haversine quantity of the projections of two unit vectors is
(1 - dot) / 2: the formula computed by main measures exactly the chord
angle of the endpoints. -/
theorem havA_eq_dot (u v : V3) (hu : dot3 u u = 1) (hv : dot3 v v = 1) :
    havA (xyz_to_lonlat u.1 u.2.1 u.2.2) (xyz_to_lonlat v.1 v.2.1 v.2.2) =
      (1 - dot3 u v) / 2 := by
  have hu' : u.1 * u.1 + u.2.1 * u.2.1 + u.2.2 * u.2.2 = 1 := hu
  have hv' : v.1 * v.1 + v.2.1 * v.2.1 + v.2.2 * v.2.2 = 1 := hv
  obtain ⟨hu1, hu2, hu3⟩ := cos_sin_arcsin_atan2 u.1 u.2.1 u.2.2 hu'
  obtain ⟨hv1, hv2, hv3⟩ := cos_sin_arcsin_atan2 v.1 v.2.1 v.2.2 hv'
  rw [xyz_to_lonlat_unit _ _ _ hu', xyz_to_lonlat_unit _ _ _ hv']
  unfold havA
  simp only [rad_deg]
  rw [sin_sq_half, sin_sq_half, Real.cos_sub, Real.cos_sub]
  unfold dot3
  linear_combination
    (-(Real.cos (Real.arcsin v.2.2) * Real.cos (atan2 v.2.1 v.1)) / 2) * hu1 +
    (-(u.1) / 2) * hv1 +
    (-(Real.cos (Real.arcsin v.2.2) * Real.sin (atan2 v.2.1 v.1)) / 2) * hu2 +
    (-(u.2.1) / 2) * hv2 +
    (-(Real.sin (Real.arcsin v.2.2)) / 2) * hu3 +
    (-(u.2.2) / 2) * hv3

/-- When the haversine quantity lies strictly between 0 and 1, the
central angle c lies strictly between 0 and pi, so sin c is positive. -/
theorem sin_havC_pos (p1 p2 : ℝ × ℝ) (h0 : 0 < havA p1 p2) (h1 : havA p1 p2 < 1) :
    0 < Real.sin (havC p1 p2) := by
  have hs : 0 < Real.sqrt (havA p1 p2) := Real.sqrt_pos.mpr h0
  have ht : 0 < Real.sqrt (1 - havA p1 p2) := Real.sqrt_pos.mpr (by linarith)
  have hpi := Real.pi_pos
  unfold havC atan2
  set z : ℂ := (Real.sqrt (1 - havA p1 p2) : ℝ) + (Real.sqrt (havA p1 p2) : ℝ) * Complex.I
    with hz
  have hre : z.re = Real.sqrt (1 - havA p1 p2) := by
    rw [hz, ← Complex.mk_eq_add_mul_I]
  have him : z.im = Real.sqrt (havA p1 p2) := by
    rw [hz, ← Complex.mk_eq_add_mul_I]
  have hzne : z ≠ 0 := by
    intro hzero
    rw [hzero, Complex.zero_re] at hre
    linarith
  have habspos : 0 < Complex.abs z := Complex.abs.pos hzne
  have hsinarg : 0 < Real.sin z.arg := by
    rw [Complex.sin_arg, him]
    exact div_pos hs habspos
  have hargsmall : |z.arg| < Real.pi / 2 :=
    Complex.abs_arg_lt_pi_div_two_iff.mpr (Or.inl (by rw [hre]; exact ht))
  obtain ⟨hal, har⟩ := abs_lt.mp hargsmall
  have harg0 : 0 < z.arg := by
    by_contra hle
    push_neg at hle
    have hsneg : 0 ≤ Real.sin (-z.arg) :=
      Real.sin_nonneg_of_nonneg_of_le_pi (by linarith) (by linarith)
    rw [Real.sin_neg] at hsneg
    linarith
  exact Real.sin_pos_of_pos_of_lt_pi (by linarith) (by linarith)

/-- A non-positive sample count produces an empty sample list without
any failure (the Python loop body never executes). -/
theorem interpolate_nonpos (p1 p2 : ℝ × ℝ) (n : ℤ) (hn : n ≤ 0) :
    interpolate p1 p2 n = some [] := by
  unfold interpolate
  rw [if_pos hn]

/-- A sample count of exactly 1 always fails: the loop body computes the
fraction j / (1 - 1). -/
theorem interpolate_one (p1 p2 : ℝ × ℝ) : interpolate p1 p2 1 = none := by
  unfold interpolate
  rw [if_neg (by omega), if_pos rfl]

/-- The interpolation loop succeeds on the projections of two unit
vectors that are neither equal nor antipodal, for every sample count of
at least 2. -/
theorem interpolate_some_of_unit (u v : V3) (hu : dot3 u u = 1) (hv : dot3 v v = 1)
    (hne1 : dot3 u v ≠ 1) (hne2 : dot3 u v ≠ -1) (n : ℤ) (hn : 2 ≤ n) :
    ∃ l, interpolate (xyz_to_lonlat u.1 u.2.1 u.2.2) (xyz_to_lonlat v.1 v.2.1 v.2.2) n
      = some l := by
  have hd1 : dot3 u v ≤ 1 := by
    unfold dot3 at *
    nlinarith [sq_nonneg (u.1 - v.1), sq_nonneg (u.2.1 - v.2.1), sq_nonneg (u.2.2 - v.2.2)]
  have hd2 : -1 ≤ dot3 u v := by
    unfold dot3 at *
    nlinarith [sq_nonneg (u.1 + v.1), sq_nonneg (u.2.1 + v.2.1), sq_nonneg (u.2.2 + v.2.2)]
  have hA := havA_eq_dot u v hu hv
  have h0 : 0 < havA (xyz_to_lonlat u.1 u.2.1 u.2.2) (xyz_to_lonlat v.1 v.2.1 v.2.2) := by
    rw [hA]
    have hlt : dot3 u v < 1 := lt_of_le_of_ne hd1 hne1
    linarith
  have h1 : havA (xyz_to_lonlat u.1 u.2.1 u.2.2) (xyz_to_lonlat v.1 v.2.1 v.2.2) < 1 := by
    rw [hA]
    have hgt : -1 < dot3 u v := lt_of_le_of_ne hd2 (Ne.symm hne2)
    linarith
  have hsin := sin_havC_pos _ _ h0 h1
  refine ⟨(List.range n.toNat).map
    (fun j : ℕ => slerpSample (xyz_to_lonlat u.1 u.2.1 u.2.2) (xyz_to_lonlat v.1 v.2.1 v.2.2)
      (havC (xyz_to_lonlat u.1 u.2.1 u.2.2) (xyz_to_lonlat v.1 v.2.1 v.2.2))
      ((j : ℝ) / ((n : ℝ) - 1))), ?_⟩
  unfold interpolate
  rw [if_neg (by omega), if_neg (by omega), if_neg (ne_of_gt hsin)]

theorem sqrt5_irr : Irrational (Real.sqrt 5) := by
  have h5 : Nat.Prime 5 := by norm_num
  simpa using h5.irrational_sqrt

theorem z5R_inj (p q : Z5) (h : z5R p = z5R q) : p = q := by
  unfold z5R at h
  have h4 : (p.1 : ℝ) + (p.2 : ℝ) * Real.sqrt 5 = (q.1 : ℝ) + (q.2 : ℝ) * Real.sqrt 5 := by
    linarith
  by_cases hb : p.2 = q.2
  · have h1 : (p.1 : ℝ) = (q.1 : ℝ) := by
      rw [hb] at h4
      linarith
    have h1' : p.1 = q.1 := by exact_mod_cast h1
    exact Prod.ext h1' hb
  · exfalso
    have hbne : ((q.2 : ℝ)) - (p.2 : ℝ) ≠ 0 := by
      intro hz
      apply hb
      have heq : (p.2 : ℝ) = (q.2 : ℝ) := by linarith
      exact_mod_cast heq
    have hval : Real.sqrt 5 * ((q.2 : ℝ) - (p.2 : ℝ)) = (p.1 : ℝ) - (q.1 : ℝ) := by
      linear_combination -h4
    apply sqrt5_irr
    refine ⟨((p.1 : ℚ) - (q.1 : ℚ)) / ((q.2 : ℚ) - (p.2 : ℚ)), ?_⟩
    push_cast
    rw [eq_comm, eq_div_iff hbne]
    linarith [hval]

theorem qvR_inj (u v : QV3) (h : qvR u = qvR v) : u = v := by
  have h1 : z5R u.1 = z5R v.1 := congrArg Prod.fst h
  have h2 : z5R u.2.1 = z5R v.2.1 := congrArg (fun t => t.2.1) h
  have h3 : z5R u.2.2 = z5R v.2.2 := congrArg (fun t => t.2.2) h
  exact Prod.ext (z5R_inj _ _ h1) (Prod.ext (z5R_inj _ _ h2) (z5R_inj _ _ h3))

theorem dot3_qvR (u v : QV3) :
    dot3 (qvR u) (qvR v) = (((dotZ u v).1 : ℝ) + ((dotZ u v).2 : ℝ) * Real.sqrt 5) / 16 := by
  have h5 : Real.sqrt 5 * Real.sqrt 5 = 5 := Real.mul_self_sqrt (by norm_num)
  unfold dot3 qvR z5R dotZ mulZ5
  push_cast
  linear_combination ((u.1.2 : ℝ) * (v.1.2 : ℝ) + (u.2.1.2 : ℝ) * (v.2.1.2 : ℝ) +
    (u.2.2.2 : ℝ) * (v.2.2.2 : ℝ)) / 16 * h5

theorem qvR_negQ (v : QV3) :
    qvR (negQ v) = (-(qvR v).1, -(qvR v).2.1, -(qvR v).2.2) := by
  unfold qvR negQ z5R
  simp only [Prod.ext_iff]
  refine ⟨?_, ?_, ?_⟩ <;> (push_cast; ring)

theorem dot3_rotX (a : ℝ) (u v : V3) : dot3 (rotX a u) (rotX a v) = dot3 u v := by
  have h := Real.sin_sq_add_cos_sq (rad a)
  unfold dot3 rotX
  linear_combination (u.2.1 * v.2.1 + u.2.2 * v.2.2) * h

theorem dot3_rotY (b : ℝ) (u v : V3) : dot3 (rotY b u) (rotY b v) = dot3 u v := by
  have h := Real.sin_sq_add_cos_sq (rad b)
  unfold dot3 rotY
  linear_combination (u.1 * v.1 + u.2.2 * v.2.2) * h

theorem dot3_rotate_vertex (a b : ℝ) (u v : V3) :
    dot3 (rotate_vertex a b u) (rotate_vertex a b v) = dot3 u v := by
  unfold rotate_vertex
  rw [dot3_rotY, dot3_rotX]

/-- The real vertex table is the image of the exact table. -/
theorem vertices_eq : VERTICES = VERTICES_Q.map qvR := by
  unfold VERTICES VERTICES_Q C0 C1 C2 C3 C4
  simp only [List.map_cons, List.map_nil, qvR, z5R, List.cons.injEq, Prod.mk.injEq,
    and_true]
  norm_num
  ring_nf
  norm_num [Real.sqrt_eq_zero]

theorem vq_length : VERTICES_Q.length = 60 := rfl

theorem v_length : VERTICES.length = 60 := by
  rw [vertices_eq, List.length_map, vq_length]

theorem vertices_getD (i : ℕ) (hi : i < 60) :
    VERTICES.getD i (0, 0, 0) = qvR (VERTICES_Q.getD i qv0) := by
  have hlt : i < VERTICES_Q.length := by rw [vq_length]; exact hi
  rw [vertices_eq, List.getD_eq_getElem?_getD, List.getElem?_map,
    List.getElem?_eq_getElem hlt, List.getD_eq_getElem?_getD,
    List.getElem?_eq_getElem hlt]
  rfl

theorem projVert_eq (latR lonR : ℝ) (i : ℕ) (hi : i < 60) :
    projVert latR lonR i =
      xyz_to_lonlat (rotate_vertex latR lonR (VERTICES.getD i (0, 0, 0))).1
        (rotate_vertex latR lonR (VERTICES.getD i (0, 0, 0))).2.1
        (rotate_vertex latR lonR (VERTICES.getD i (0, 0, 0))).2.2 := by
  have hlt : i < VERTICES.length := by rw [v_length]; exact hi
  unfold projVert vertex_lonlat
  rw [List.getD_eq_getElem?_getD, List.getElem?_map, List.getElem?_eq_getElem hlt,
    List.getD_eq_getElem?_getD, List.getElem?_eq_getElem hlt]
  rfl

theorem dot3_div (u v : V3) (r s : ℝ) :
    dot3 (u.1 / r, u.2.1 / r, u.2.2 / r) (v.1 / s, v.2.1 / s, v.2.2 / s) =
      dot3 u v / (r * s) := by
  unfold dot3
  rcases eq_or_ne r 0 with hr | hr
  · subst hr
    simp
  · rcases eq_or_ne s 0 with hs | hs
    · subst hs
      simp
    · field_simp
      try ring

theorem v3_eq_of_sq_sum_zero (A B : V3)
    (h : (A.1 - B.1) ^ 2 + (A.2.1 - B.2.1) ^ 2 + (A.2.2 - B.2.2) ^ 2 = 0) : A = B := by
  have z1 : (A.1 - B.1) ^ 2 = 0 := by
    nlinarith [sq_nonneg (A.1 - B.1), sq_nonneg (A.2.1 - B.2.1), sq_nonneg (A.2.2 - B.2.2)]
  have z2 : (A.2.1 - B.2.1) ^ 2 = 0 := by
    nlinarith [sq_nonneg (A.1 - B.1), sq_nonneg (A.2.1 - B.2.1), sq_nonneg (A.2.2 - B.2.2)]
  have z3 : (A.2.2 - B.2.2) ^ 2 = 0 := by
    nlinarith [sq_nonneg (A.1 - B.1), sq_nonneg (A.2.1 - B.2.1), sq_nonneg (A.2.2 - B.2.2)]
  have c1 : A.1 = B.1 := sub_eq_zero.mp (pow_eq_zero_iff two_ne_zero |>.mp z1)
  have c2 : A.2.1 = B.2.1 := sub_eq_zero.mp (pow_eq_zero_iff two_ne_zero |>.mp z2)
  have c3 : A.2.2 = B.2.2 := sub_eq_zero.mp (pow_eq_zero_iff two_ne_zero |>.mp z3)
  exact Prod.ext c1 (Prod.ext c2 c3)

/-- The interpolation loop succeeds for the projections of two points on
a common sphere of squared radius N whose dot product avoids the two
degenerate values N (coincident) and -N (antipodal). -/
theorem interp_ok_of_sphere (w1 w2 : V3) (N : ℝ) (hNpos : 0 < N)
    (h1 : dot3 w1 w1 = N) (h2 : dot3 w2 w2 = N)
    (hd1 : dot3 w1 w2 ≠ N) (hd2 : dot3 w1 w2 ≠ -N) (n : ℤ) (hn : 2 ≤ n) :
    ∃ l, interpolate (xyz_to_lonlat w1.1 w1.2.1 w1.2.2)
      (xyz_to_lonlat w2.1 w2.2.1 w2.2.2) n = some l := by
  have hs1 : 0 < w1.1 * w1.1 + w1.2.1 * w1.2.1 + w1.2.2 * w1.2.2 := lt_of_lt_of_eq hNpos h1.symm
  have hs2 : 0 < w2.1 * w2.1 + w2.2.1 * w2.2.1 + w2.2.2 * w2.2.2 := lt_of_lt_of_eq hNpos h2.symm
  obtain ⟨hu1, hp1⟩ := xyz_to_lonlat_normalize w1.1 w1.2.1 w1.2.2 hs1
  obtain ⟨hu2, hp2⟩ := xyz_to_lonlat_normalize w2.1 w2.2.1 w2.2.2 hs2
  rw [hp1, hp2]
  have hr1 : Real.sqrt (w1.1 * w1.1 + w1.2.1 * w1.2.1 + w1.2.2 * w1.2.2) = Real.sqrt N := by
    congr 1
  have hr2 : Real.sqrt (w2.1 * w2.1 + w2.2.1 * w2.2.1 + w2.2.2 * w2.2.2) = Real.sqrt N := by
    congr 1
  have hrr : Real.sqrt N * Real.sqrt N = N := Real.mul_self_sqrt hNpos.le
  have hNne : N ≠ 0 := ne_of_gt hNpos
  have hdd : dot3
      (w1.1 / Real.sqrt (w1.1 * w1.1 + w1.2.1 * w1.2.1 + w1.2.2 * w1.2.2),
       w1.2.1 / Real.sqrt (w1.1 * w1.1 + w1.2.1 * w1.2.1 + w1.2.2 * w1.2.2),
       w1.2.2 / Real.sqrt (w1.1 * w1.1 + w1.2.1 * w1.2.1 + w1.2.2 * w1.2.2))
      (w2.1 / Real.sqrt (w2.1 * w2.1 + w2.2.1 * w2.2.1 + w2.2.2 * w2.2.2),
       w2.2.1 / Real.sqrt (w2.1 * w2.1 + w2.2.1 * w2.2.1 + w2.2.2 * w2.2.2),
       w2.2.2 / Real.sqrt (w2.1 * w2.1 + w2.2.1 * w2.2.1 + w2.2.2 * w2.2.2)) =
      dot3 w1 w2 / N := by
    rw [dot3_div w1 w2, hr1, hr2, hrr]
  apply interpolate_some_of_unit
    (w1.1 / Real.sqrt (w1.1 * w1.1 + w1.2.1 * w1.2.1 + w1.2.2 * w1.2.2),
     w1.2.1 / Real.sqrt (w1.1 * w1.1 + w1.2.1 * w1.2.1 + w1.2.2 * w1.2.2),
     w1.2.2 / Real.sqrt (w1.1 * w1.1 + w1.2.1 * w1.2.1 + w1.2.2 * w1.2.2))
    (w2.1 / Real.sqrt (w2.1 * w2.1 + w2.2.1 * w2.2.1 + w2.2.2 * w2.2.2),
     w2.2.1 / Real.sqrt (w2.1 * w2.1 + w2.2.1 * w2.2.1 + w2.2.2 * w2.2.2),
     w2.2.2 / Real.sqrt (w2.1 * w2.1 + w2.2.1 * w2.2.1 + w2.2.2 * w2.2.2))
    hu1 hu2 ?_ ?_ n hn
  · rw [hdd]
    intro hcontra
    rw [div_eq_one_iff_eq hNne] at hcontra
    exact hd1 hcontra
  · rw [hdd]
    intro hcontra
    rw [div_eq_iff hNne] at hcontra
    apply hd2
    rw [hcontra]
    ring

/-- Every well-formed edge of the geometry table interpolates without
failure for any rotation parameters and any sample count of at least
2. -/
theorem interp_edge_ok (latR lonR : ℝ) (i j : ℕ) (hg : goodPair i j) (n : ℤ) (hn : 2 ≤ n) :
    ∃ l, interpolate (projVert latR lonR i) (projVert latR lonR j) n = some l := by
  obtain ⟨hi, hj, hni, hnj, hneq, hnneg⟩ := hg
  have hsq5 : (0 : ℝ) ≤ Real.sqrt 5 := Real.sqrt_nonneg 5
  have hNpos : (0 : ℝ) < (58 + 18 * Real.sqrt 5) / 16 := by positivity
  have h11 : dot3 (qvR (VERTICES_Q.getD i qv0)) (qvR (VERTICES_Q.getD i qv0)) =
      (58 + 18 * Real.sqrt 5) / 16 := by
    rw [dot3_qvR, hni]
    norm_num
  have h22 : dot3 (qvR (VERTICES_Q.getD j qv0)) (qvR (VERTICES_Q.getD j qv0)) =
      (58 + 18 * Real.sqrt 5) / 16 := by
    rw [dot3_qvR, hnj]
    norm_num
  rw [projVert_eq latR lonR i hi, projVert_eq latR lonR j hj,
    vertices_getD i hi, vertices_getD j hj]
  apply interp_ok_of_sphere _ _ ((58 + 18 * Real.sqrt 5) / 16) hNpos _ _ _ _ n hn
  · rw [dot3_rotate_vertex]
    exact h11
  · rw [dot3_rotate_vertex]
    exact h22
  · rw [dot3_rotate_vertex]
    intro hcontra
    apply hneq
    apply qvR_inj
    apply v3_eq_of_sq_sum_zero
    unfold dot3 at h11 h22 hcontra
    linear_combination h11 + h22 - 2 * hcontra
  · rw [dot3_rotate_vertex]
    intro hcontra
    apply hnneg
    apply qvR_inj
    rw [qvR_negQ]
    apply v3_eq_of_sq_sum_zero
    unfold dot3 at h11 h22 hcontra
    simp only [Prod.fst, Prod.snd]
    linear_combination h11 + h22 + 2 * hcontra

set_option maxRecDepth 40000 in
/-- Every edge enumerated by main from the FACES table is well formed:
indices in range, endpoints on the common sphere, endpoints neither
equal nor antipodal. -/
theorem edges_good : ∀ e ∈ allEdges, goodPair e.1 e.2 := by
  simp only [goodPair]
  decide

theorem allEdges_ne_nil : allEdges ≠ [] := by
  decide

theorem seqInterp_nonpos (latR lonR : ℝ) (n : ℤ) (hn : n ≤ 0) (es : List (ℕ × ℕ)) :
    seqInterp latR lonR n es = some (es.map (fun _ => [])) := by
  induction es with
  | nil => rfl
  | cons e es ih =>
    simp only [seqInterp, List.map_cons]
    rw [interpolate_nonpos _ _ n hn, ih]

theorem seqInterp_some (latR lonR : ℝ) (n : ℤ) (hn : 2 ≤ n) (es : List (ℕ × ℕ))
    (hall : ∀ e ∈ es, goodPair e.1 e.2) :
    ∃ l, seqInterp latR lonR n es = some l := by
  induction es with
  | nil => exact ⟨[], rfl⟩
  | cons e es ih =>
    obtain ⟨ps, hps⟩ :=
      interp_edge_ok latR lonR e.1 e.2 (hall e (List.mem_cons_self e es)) n hn
    obtain ⟨rest, hrest⟩ := ih (fun x hx => hall x (List.mem_cons_of_mem _ hx))
    refine ⟨ps :: rest, ?_⟩
    simp only [seqInterp]
    rw [hps, hrest]

/-- C10: the edge-drawing phase of main raises ZeroDivisionError exactly
when interpolation_points equals 1, for every rotation pair; when the
count is nonpositive the loop body never runs, every edge contributes an
empty sample list, and no failure occurs, so the run falls through to
the flood-fill stage with no stroke pixels drawn. -/
theorem C10_edge_phase_divzero_iff (latR lonR : ℝ) (n : ℤ) :
    (run_edges latR lonR n = none ↔ n = 1) ∧
    (n ≤ 0 → run_edges latR lonR n = some (allEdges.map (fun _ => []))) := by
  refine ⟨⟨?_, ?_⟩, ?_⟩
  · intro hnone
    by_contra hne
    rcases le_or_lt n 0 with hle | hpos
    · rw [show run_edges latR lonR n = seqInterp latR lonR n allEdges from rfl,
        seqInterp_nonpos latR lonR n hle] at hnone
      exact Option.noConfusion hnone
    · have h2 : 2 ≤ n := by omega
      obtain ⟨l, hl⟩ := seqInterp_some latR lonR n h2 allEdges edges_good
      rw [show run_edges latR lonR n = seqInterp latR lonR n allEdges from rfl, hl] at hnone
      exact Option.noConfusion hnone
  · intro h1
    subst h1
    obtain ⟨e, es, hcons⟩ := List.exists_cons_of_ne_nil allEdges_ne_nil
    unfold run_edges
    rw [hcons]
    simp only [seqInterp]
    rw [interpolate_one]
  · intro hn
    exact seqInterp_nonpos latR lonR n hn allEdges

/-- Witness for C10 at the default rotation (15, 0): count 1 fails,
count 0 silently yields empty sample lists for all edges. -/
theorem C10_edge_phase_divzero_iff_witness :
    run_edges 15 0 1 = none ∧
    run_edges 15 0 0 = some (allEdges.map (fun _ => [])) :=
  ⟨(C10_edge_phase_divzero_iff 15 0 1).1.mpr rfl,
   (C10_edge_phase_divzero_iff 15 0 0).2 le_rfl⟩

theorem deg_le_deg (a b : ℝ) (h : a ≤ b) : deg a ≤ deg b := by
  unfold deg
  rw [div_le_div_iff_of_pos_right Real.pi_pos]
  linarith

theorem deg_lt_deg (a b : ℝ) (h : a < b) : deg a < deg b := by
  unfold deg
  rw [div_lt_div_iff_of_pos_right Real.pi_pos]
  linarith

theorem deg_inj (a b : ℝ) (h : deg a = deg b) : a = b := by
  unfold deg at h
  have hpi := Real.pi_ne_zero
  field_simp at h
  linarith

theorem deg_zero : deg 0 = 0 := by
  unfold deg
  ring

theorem deg_neg (a : ℝ) : deg (-a) = -deg a := by
  unfold deg
  ring

theorem deg_180 : deg Real.pi = 180 := by
  unfold deg
  field_simp

theorem deg_pi_div_two : deg (Real.pi / 2) = 90 := by
  unfold deg
  field_simp
  ring

/-- Every output of xyz_to_lonlat on a unit vector satisfies the range
condition of projected points. -/
theorem inRange_of_unit (x y z : ℝ) (h : x * x + y * y + z * z = 1) :
    inRange (xyz_to_lonlat x y z) := by
  have hpi := Real.pi_pos
  rw [xyz_to_lonlat_unit x y z h]
  have harg1 : -Real.pi < atan2 y x := by
    unfold atan2
    exact Complex.neg_pi_lt_arg _
  have harg2 : atan2 y x ≤ Real.pi := by
    unfold atan2
    exact Complex.arg_le_pi _
  have has1 : -(Real.pi / 2) ≤ Real.arcsin z := Real.neg_pi_div_two_le_arcsin z
  have has2 : Real.arcsin z ≤ Real.pi / 2 := Real.arcsin_le_pi_div_two z
  refine ⟨?_, ?_, ?_, ?_, ?_⟩
  · show -180 < deg (atan2 y x)
    calc (-180 : ℝ) = deg (-Real.pi) := by rw [deg_neg, deg_180]
    _ < deg (atan2 y x) := deg_lt_deg _ _ harg1
  · show deg (atan2 y x) ≤ 180
    calc deg (atan2 y x) ≤ deg Real.pi := deg_le_deg _ _ harg2
    _ = 180 := deg_180
  · show -90 ≤ deg (Real.arcsin z)
    calc (-90 : ℝ) = deg (-(Real.pi / 2)) := by rw [deg_neg, deg_pi_div_two]
    _ ≤ deg (Real.arcsin z) := deg_le_deg _ _ has1
  · show deg (Real.arcsin z) ≤ 90
    calc deg (Real.arcsin z) ≤ deg (Real.pi / 2) := deg_le_deg _ _ has2
    _ = 90 := deg_pi_div_two
  · intro hpole
    show deg (atan2 y x) = 0
    have hz1 : -1 ≤ z := by nlinarith
    have hz2 : z ≤ 1 := by nlinarith
    have hz : z = 1 ∨ z = -1 := by
      rcases hpole with h90 | h90
      · left
        have harc : Real.arcsin z = Real.pi / 2 := by
          apply deg_inj
          rw [deg_pi_div_two]
          exact h90
        calc z = Real.sin (Real.arcsin z) := (Real.sin_arcsin hz1 hz2).symm
        _ = Real.sin (Real.pi / 2) := by rw [harc]
        _ = 1 := Real.sin_pi_div_two
      · right
        have harc : Real.arcsin z = -(Real.pi / 2) := by
          apply deg_inj
          rw [deg_neg, deg_pi_div_two]
          exact h90
        calc z = Real.sin (Real.arcsin z) := (Real.sin_arcsin hz1 hz2).symm
        _ = Real.sin (-(Real.pi / 2)) := by rw [harc]
        _ = -1 := by rw [Real.sin_neg, Real.sin_pi_div_two]
    have hxy : x * x + y * y = 0 := by
      rcases hz with hz | hz <;> rw [hz] at h <;> nlinarith
    have hx0 : x = 0 := by
      have : x * x = 0 := by nlinarith [mul_self_nonneg y]
      exact mul_self_eq_zero.mp this
    have hy0 : y = 0 := by
      have : y * y = 0 := by nlinarith [mul_self_nonneg x]
      exact mul_self_eq_zero.mp this
    rw [hx0, hy0, atan2_zero_zero, deg_zero]

/-- Converting a range-conditioned (lon, lat) pair to a Cartesian unit
vector and back through atan2 recovers the pair exactly. -/
theorem endpoint_roundtrip (p : ℝ × ℝ) (hr : inRange p) (x y z : ℝ)
    (hx : x = Real.cos (rad p.2) * Real.cos (rad p.1))
    (hy : y = Real.cos (rad p.2) * Real.sin (rad p.1))
    (hz : z = Real.sin (rad p.2)) :
    (deg (atan2 y x), deg (atan2 z (Real.sqrt (x * x + y * y)))) = p := by
  obtain ⟨hl1, hl2, hb1, hb2, hpole⟩ := hr
  have hpi := Real.pi_pos
  subst hx
  subst hy
  subst hz
  set la := rad p.2 with hla
  set lo := rad p.1 with hlo
  have hla1 : -(Real.pi / 2) ≤ la := by
    rw [hla, show -(Real.pi / 2) = rad (-90) from by unfold rad; ring]
    exact rad_le_rad _ _ hb1
  have hla2 : la ≤ Real.pi / 2 := by
    rw [hla, show Real.pi / 2 = rad 90 from by unfold rad; ring]
    exact rad_le_rad _ _ hb2
  have hlo1 : -Real.pi < lo := by
    rw [hlo, show -Real.pi = rad (-180) from by unfold rad; ring]
    exact rad_lt_rad _ _ hl1
  have hlo2 : lo ≤ Real.pi := by
    rw [hlo, show Real.pi = rad 180 from rad_180.symm]
    exact rad_le_rad _ _ hl2
  have hcos : 0 ≤ Real.cos la := Real.cos_nonneg_of_mem_Icc ⟨hla1, hla2⟩
  have hsq : Real.sqrt (Real.cos la * Real.cos lo * (Real.cos la * Real.cos lo) +
      Real.cos la * Real.sin lo * (Real.cos la * Real.sin lo)) = Real.cos la := by
    rw [show Real.cos la * Real.cos lo * (Real.cos la * Real.cos lo) +
        Real.cos la * Real.sin lo * (Real.cos la * Real.sin lo) =
        Real.cos la * Real.cos la from by
      linear_combination (Real.cos la * Real.cos la) * Real.sin_sq_add_cos_sq lo]
    exact Real.sqrt_mul_self hcos
  have hlat : deg (atan2 (Real.sin la) (Real.cos la)) = p.2 := by
    have harg : atan2 (Real.sin la) (Real.cos la) = la := by
      unfold atan2
      rw [Complex.ofReal_cos, Complex.ofReal_sin]
      exact Complex.arg_cos_add_sin_mul_I ⟨by linarith, by linarith⟩
    rw [harg, hla, deg_rad]
  rcases eq_or_lt_of_le hcos with hz0 | hpos
  · have hla_eq : la = Real.pi / 2 ∨ la = -(Real.pi / 2) := by
      obtain ⟨k, hk⟩ := Real.cos_eq_zero_iff.mp hz0.symm
      have hk1 : ((2 * k + 1 : ℤ) : ℝ) ≤ 1 := by
        by_contra hgt
        push_neg at hgt
        rw [hk] at hla2
        push_cast at hgt
        nlinarith
      have hk2 : (-1 : ℝ) ≤ ((2 * k + 1 : ℤ) : ℝ) := by
        by_contra hlt
        push_neg at hlt
        rw [hk] at hla1
        push_cast at hlt
        nlinarith
      have hk0 : k = 0 ∨ k = -1 := by
        have h1 : (2 * k + 1 : ℤ) ≤ 1 := by exact_mod_cast hk1
        have h2 : (-1 : ℤ) ≤ 2 * k + 1 := by exact_mod_cast hk2
        omega
      rcases hk0 with h | h
      · left
        rw [hk, h]
        push_cast
        ring
      · right
        rw [hk, h]
        push_cast
        ring
    have hp2 : p.2 = 90 ∨ p.2 = -90 := by
      rcases hla_eq with h | h
      · left
        have : deg la = deg (Real.pi / 2) := by rw [h]
        rw [hla, deg_rad, deg_pi_div_two] at this
        exact this
      · right
        have : deg la = deg (-(Real.pi / 2)) := by rw [h]
        rw [hla, deg_rad, deg_neg, deg_pi_div_two] at this
        exact this
    have hp1 : p.1 = 0 := hpole hp2
    apply Prod.ext
    · show deg (atan2 (Real.cos la * Real.sin lo) (Real.cos la * Real.cos lo)) = p.1
      rw [show Real.cos la * Real.sin lo = 0 from by rw [← hz0]; ring,
        show Real.cos la * Real.cos lo = 0 from by rw [← hz0]; ring,
        atan2_zero_zero, deg_zero, hp1]
    · show deg (atan2 (Real.sin la) (Real.sqrt (Real.cos la * Real.cos lo *
        (Real.cos la * Real.cos lo) + Real.cos la * Real.sin lo *
        (Real.cos la * Real.sin lo)))) = p.2
      rw [hsq]
      exact hlat
  · apply Prod.ext
    · show deg (atan2 (Real.cos la * Real.sin lo) (Real.cos la * Real.cos lo)) = p.1
      unfold atan2
      rw [show ((Real.cos la * Real.cos lo : ℝ) : ℂ) +
          (Real.cos la * Real.sin lo : ℝ) * Complex.I =
          (Real.cos la : ℝ) * ((Real.cos lo : ℝ) + (Real.sin lo : ℝ) * Complex.I) from by
        push_cast
        ring]
      rw [Complex.arg_real_mul _ hpos]
      rw [show Complex.arg ((Real.cos lo : ℝ) + (Real.sin lo : ℝ) * Complex.I) = lo from by
        rw [Complex.ofReal_cos, Complex.ofReal_sin]
        exact Complex.arg_cos_add_sin_mul_I ⟨hlo1, hlo2⟩]
      rw [hlo, deg_rad]
    · show deg (atan2 (Real.sin la) (Real.sqrt (Real.cos la * Real.cos lo *
        (Real.cos la * Real.cos lo) + Real.cos la * Real.sin lo *
        (Real.cos la * Real.sin lo)))) = p.2
      rw [hsq]
      exact hlat

theorem slerpSample_zero (p1 p2 : ℝ × ℝ) (c : ℝ) (hc : Real.sin c ≠ 0) (h1 : inRange p1) :
    slerpSample p1 p2 c 0 = p1 := by
  simp only [slerpSample]
  apply endpoint_roundtrip p1 h1
  · rw [show ((1 : ℝ) - 0) * c = c from by ring, div_self hc, zero_mul, Real.sin_zero,
      zero_div]
    ring
  · rw [show ((1 : ℝ) - 0) * c = c from by ring, div_self hc, zero_mul, Real.sin_zero,
      zero_div]
    ring
  · rw [show ((1 : ℝ) - 0) * c = c from by ring, div_self hc, zero_mul, Real.sin_zero,
      zero_div]
    ring

theorem slerpSample_one (p1 p2 : ℝ × ℝ) (c : ℝ) (hc : Real.sin c ≠ 0) (h2 : inRange p2) :
    slerpSample p1 p2 c 1 = p2 := by
  simp only [slerpSample]
  apply endpoint_roundtrip p2 h2
  · rw [show ((1 : ℝ) - 1) * c = 0 from by ring, Real.sin_zero, zero_div, one_mul,
      div_self hc]
    ring
  · rw [show ((1 : ℝ) - 1) * c = 0 from by ring, Real.sin_zero, zero_div, one_mul,
      div_self hc]
    ring
  · rw [show ((1 : ℝ) - 1) * c = 0 from by ring, Real.sin_zero, zero_div, one_mul,
      div_self hc]
    ring

/-- C4: every projected point satisfies the range condition, and for
every pair of range-conditioned points for which the interpolation loop
returns a list of n >= 2 samples, the first sample is exactly p1 and the
last sample is exactly p2 after the round trip through Cartesian
coordinates. -/
theorem C4_interpolation_preserves_endpoints :
    (∀ x y z : ℝ, 0 < x * x + y * y + z * z → inRange (xyz_to_lonlat x y z)) ∧
    (∀ (p1 p2 : ℝ × ℝ) (n : ℤ) (pts : List (ℝ × ℝ)), inRange p1 → inRange p2 →
      2 ≤ n → interpolate p1 p2 n = some pts →
      pts.head? = some p1 ∧ pts.getLast? = some p2) := by
  constructor
  · intro x y z h
    obtain ⟨hunit, hnorm⟩ := xyz_to_lonlat_normalize x y z h
    rw [hnorm]
    exact inRange_of_unit _ _ _ hunit
  · intro p1 p2 n pts hr1 hr2 hn heq
    unfold interpolate at heq
    rw [if_neg (by omega), if_neg (by omega)] at heq
    by_cases hsin : Real.sin (havC p1 p2) = 0
    · rw [if_pos hsin] at heq
      exact Option.noConfusion heq
    · rw [if_neg hsin] at heq
      have hpts : pts = (List.range n.toNat).map
          (fun j : ℕ => slerpSample p1 p2 (havC p1 p2) ((j : ℝ) / ((n : ℝ) - 1))) :=
        (Option.some.inj heq).symm
      subst hpts
      obtain ⟨m, hm⟩ : ∃ m, n.toNat = m + 1 := ⟨n.toNat - 1, by omega⟩
      have hne1 : (n : ℝ) - 1 ≠ 0 := by
        have h2 : (2 : ℝ) ≤ (n : ℝ) := by exact_mod_cast hn
        intro hzero
        linarith
      constructor
      · rw [hm, List.range_succ_eq_map]
        simp only [List.map_cons, List.head?_cons]
        congr 1
        rw [show ((0 : ℕ) : ℝ) / ((n : ℝ) - 1) = 0 from by norm_num]
        exact slerpSample_zero p1 p2 _ hsin hr1
      · rw [hm, List.range_succ, List.map_append, List.map_cons, List.map_nil,
          List.getLast?_concat]
        congr 1
        have hmr : ((m : ℕ) : ℝ) = (n : ℝ) - 1 := by
          have htn : ((n.toNat : ℕ) : ℝ) = (n : ℝ) := by
            exact_mod_cast congrArg (fun k : ℤ => (k : ℝ)) (Int.toNat_of_nonneg (by omega))
          rw [hm] at htn
          push_cast at htn ⊢
          linarith
        rw [hmr, div_self hne1]
        exact slerpSample_one p1 p2 _ hsin hr2

theorem havA_witness : havA (0, 0) (90, 0) = 1 / 2 := by
  unfold havA rad
  norm_num
  rw [show (90 : ℝ) * Real.pi / 180 / 2 = Real.pi / 4 from by ring, Real.sin_pi_div_four]
  rw [div_pow, Real.sq_sqrt (by norm_num : (0 : ℝ) ≤ 2)]
  norm_num

theorem havC_witness : havC (0, 0) (90, 0) = Real.pi / 2 := by
  have hpi := Real.pi_pos
  unfold havC
  rw [havA_witness, show (1 : ℝ) - 1 / 2 = 1 / 2 from by norm_num]
  have hsq : Real.sqrt (1 / 2) = Real.sqrt 2 / 2 := by
    rw [show (1 / 2 : ℝ) = (Real.sqrt 2 / 2) ^ 2 from by
      rw [div_pow, Real.sq_sqrt (by norm_num : (0 : ℝ) ≤ 2)]
      norm_num]
    exact Real.sqrt_sq (by positivity)
  have harg : atan2 (Real.sqrt 2 / 2) (Real.sqrt 2 / 2) = Real.pi / 4 := by
    unfold atan2
    rw [show ((Real.sqrt 2 / 2 : ℝ) : ℂ) + (Real.sqrt 2 / 2 : ℝ) * Complex.I =
        Complex.cos ((Real.pi / 4 : ℝ) : ℂ) + Complex.sin ((Real.pi / 4 : ℝ) : ℂ) * Complex.I
        from by
      rw [← Complex.ofReal_cos, ← Complex.ofReal_sin, Real.cos_pi_div_four,
        Real.sin_pi_div_four]]
    exact Complex.arg_cos_add_sin_mul_I ⟨by linarith, by linarith⟩
  rw [hsq, harg]
  ring

theorem interp_witness_eval : interpolate (0, 0) (90, 0) 2 = some [(0, 0), (90, 0)] := by
  have hr1 : inRange ((0 : ℝ), (0 : ℝ)) := by unfold inRange; norm_num
  have hr2 : inRange ((90 : ℝ), (0 : ℝ)) := by unfold inRange; norm_num
  have hsin : Real.sin (havC (0, 0) (90, 0)) ≠ 0 := by
    rw [havC_witness, Real.sin_pi_div_two]
    norm_num
  unfold interpolate
  rw [if_neg (by omega), if_neg (by omega), if_neg hsin]
  congr 1
  rw [show ((2 : ℤ)).toNat = 2 from rfl, show List.range 2 = [0, 1] from rfl]
  simp only [List.map_cons, List.map_nil]
  rw [show ((0 : ℕ) : ℝ) / (((2 : ℤ) : ℝ) - 1) = 0 from by norm_num,
    show ((1 : ℕ) : ℝ) / (((2 : ℤ) : ℝ) - 1) = 1 from by norm_num,
    slerpSample_zero _ _ _ hsin hr1, slerpSample_one _ _ _ hsin hr2]

/-- Witness for C4 on the equatorial quarter arc from (0, 0) to (90, 0)
with two samples. -/
theorem C4_interpolation_preserves_endpoints_witness :
    interpolate (0, 0) (90, 0) 2 = some [(0, 0), (90, 0)] ∧
    ([((0 : ℝ), (0 : ℝ)), ((90 : ℝ), (0 : ℝ))] : List (ℝ × ℝ)).head? = some (0, 0) ∧
    ([((0 : ℝ), (0 : ℝ)), ((90 : ℝ), (0 : ℝ))] : List (ℝ × ℝ)).getLast? = some (90, 0) := by
  have hr1 : inRange ((0 : ℝ), (0 : ℝ)) := by unfold inRange; norm_num
  have hr2 : inRange ((90 : ℝ), (0 : ℝ)) := by unfold inRange; norm_num
  obtain ⟨hh, hl⟩ := C4_interpolation_preserves_endpoints.2 (0, 0) (90, 0) 2 _ hr1 hr2
    (by norm_num) interp_witness_eval
  exact ⟨interp_witness_eval, hh, hl⟩

end BallGen
